import Mathlib

/-!
Verification of the parameter-set core of the ACTS track-parameter toolkit.

The repository provides the unit-test translation unit
`Test/EventData/ParameterSet/ParameterSetTests.cxx`, whose anonymous-namespace
helpers `get_cyclic_value` and `get_cyclic_difference` are embedded below
verbatim.  The `ParameterSet.h` header itself is not part of the provided
sources, so the parameter-set data model and its operations (range correction,
accessors, residual algebra, projector, equality, copy/swap) are modelled from
the specification, as marked on each definition.

Real-valued quantities are modelled over `ℚ`, which keeps every definition
executable and every concrete instance decidable; the spec states all range
rules in exact real arithmetic.
-/

/-- Modelled from the spec: the bound class of a parameter trait
(`boundClass ∈ \x7bUnbound, Bounded, Cyclic\x7d`); `ParameterSet.h` and the
parameter-trait definitions are not in the provided sources. -/
inductive BoundClass where
  | Unbound : BoundClass
  | Bounded : BoundClass
  | Cyclic : BoundClass
deriving DecidableEq

/-- Modelled from the spec: per-identifier trait metadata — a bound class and,
for `Bounded`/`Cyclic`, the bounds `pMin`/`pMax` (names follow the
`parameter_traits<Policy,par>::pMin()/pMax()` accessors used by the tests). -/
structure ParameterTrait where
  boundClass : BoundClass
  pMin : ℚ
  pMax : ℚ
deriving DecidableEq

/-- Modelled from the spec: a parameter policy fixes the canonical full
enumeration of identifiers (modelled as `Fin dim`, ordered by position) and the
trait of each identifier. -/
structure ParameterPolicy where
  dim : ℕ
  trait : Fin dim → ParameterTrait

/-- Embedded from `ParameterSetTests.cxx` (`get_cyclic_value`): fold `value`
into `[pmin, pmax)` by the period `pmax - pmin`:
`value - (max - min) * floor((value - min)/(max - min))`. -/
def get_cyclic_value (value pmin pmax : ℚ) : ℚ :=
  value - (pmax - pmin) * (⌊(value - pmin) / (pmax - pmin)⌋ : ℤ)

/-- Embedded from `ParameterSetTests.cxx` (`get_cyclic_difference`): wrap both
operands into `[pmin, pmax)`, take the plain difference, then fold by one
period when the difference exceeds half a period in magnitude (strict
comparison on the negative side, as in the source). -/
def get_cyclic_difference (a b pmin pmax : ℚ) : ℚ :=
  if get_cyclic_value a pmin pmax - get_cyclic_value b pmin pmax > (pmax - pmin) / 2 then
    get_cyclic_value a pmin pmax - get_cyclic_value b pmin pmax - (pmax - pmin)
  else if get_cyclic_value a pmin pmax - get_cyclic_value b pmin pmax < -((pmax - pmin) / 2) then
    (pmax - pmin) + (get_cyclic_value a pmin pmax - get_cyclic_value b pmin pmax)
  else
    get_cyclic_value a pmin pmax - get_cyclic_value b pmin pmax

/-- Modelled from the spec: range correction
`correct(boundClass, min, max, rawValue)` — identity for `Unbound`,
`clamp(rawValue, min, max)` for `Bounded`, periodic fold into `[min, max)` for
`Cyclic` (the cyclic formula coincides with the in-source test helper
`get_cyclic_value`). -/
def correct (t : ParameterTrait) (rawValue : ℚ) : ℚ :=
  match t.boundClass with
  | BoundClass.Unbound => rawValue
  | BoundClass.Bounded => min t.pMax (max t.pMin rawValue)
  | BoundClass.Cyclic => get_cyclic_value rawValue t.pMin t.pMax

/-- Modelled from the spec: the per-parameter-class difference rule of the
residual algebra, applied to already-corrected stored values: plain difference
for `Unbound` and `Bounded`; for `Cyclic`, the plain difference `d` folded into
`(-P/2, P/2]` by `d > P/2 → d - P` and `d ≤ -P/2 → d + P` with
`P = pMax - pMin`. -/
def residualComp (t : ParameterTrait) (a b : ℚ) : ℚ :=
  match t.boundClass with
  | BoundClass.Unbound => a - b
  | BoundClass.Bounded => a - b
  | BoundClass.Cyclic =>
      if a - b > (t.pMax - t.pMin) / 2 then a - b - (t.pMax - t.pMin)
      else if a - b ≤ -((t.pMax - t.pMin) / 2) then a - b + (t.pMax - t.pMin)
      else a - b

/-- Modelled from the spec: `ParameterSet<Policy, Ids...>` — the compile-time
identifier selection is the type-level list `ids` (kept in the given order, not
re-sorted), the stored values are one rational per selected identifier, and the
covariance is an optional square matrix of matching dimension (value semantics
stand in for the exclusively-owned heap matrix). -/
structure ParameterSet (Pol : ParameterPolicy) (ids : List (Fin Pol.dim)) where
  values : Fin ids.length → ℚ
  cov : Option (Matrix (Fin ids.length) (Fin ids.length) ℚ)

/-- Modelled from the spec: construction from raw per-identifier values and an
optional covariance; every raw value is range-corrected before storage. -/
def ParameterSet.make (Pol : ParameterPolicy) (ids : List (Fin Pol.dim))
    (cov : Option (Matrix (Fin ids.length) (Fin ids.length) ℚ))
    (raw : Fin ids.length → ℚ) : ParameterSet Pol ids :=
  ⟨fun k => correct (Pol.trait (ids.get k)) (raw k), cov⟩

/-- Modelled from the spec: `getParameter` returns the stored corrected value;
membership of the identifier in the selection is enforced by the index type. -/
def ParameterSet.getParameter {Pol : ParameterPolicy} {ids : List (Fin Pol.dim)}
    (ps : ParameterSet Pol ids) (k : Fin ids.length) : ℚ :=
  ps.values k

/-- Modelled from the spec: `setParameter(id, rawValue)` corrects `rawValue`
per the trait of the selected identifier at position `k` and stores it; the
identifiers of a selection are pairwise distinct, so a position determines the
identifier. -/
def ParameterSet.setParameter {Pol : ParameterPolicy} {ids : List (Fin Pol.dim)}
    (ps : ParameterSet Pol ids) (k : Fin ids.length) (rawValue : ℚ) :
    ParameterSet Pol ids :=
  ⟨Function.update ps.values k (correct (Pol.trait (ids.get k)) rawValue), ps.cov⟩

/-- Modelled from the spec: bulk `setParameters` corrects every component
independently, in identifier order. -/
def ParameterSet.setParameters {Pol : ParameterPolicy} {ids : List (Fin Pol.dim)}
    (ps : ParameterSet Pol ids) (raw : Fin ids.length → ℚ) : ParameterSet Pol ids :=
  ⟨fun k => correct (Pol.trait (ids.get k)) (raw k), ps.cov⟩

/-- Modelled from the spec: `a.residual(b)` — componentwise difference of the
stored (already-corrected) values under the per-class residual rule, in the
selection's own order. -/
def ParameterSet.residual {Pol : ParameterPolicy} {ids : List (Fin Pol.dim)}
    (a b : ParameterSet Pol ids) : Fin ids.length → ℚ :=
  fun k => residualComp (Pol.trait (ids.get k)) (a.values k) (b.values k)

/-- Modelled from the spec: `projector()` — the constant
`|Ids...| × |FullSet|` selection matrix whose row `k` is one-hot at the column
of the `k`-th selected identifier's position in the canonical full
enumeration. -/
def ParameterSet.projector (Pol : ParameterPolicy) (ids : List (Fin Pol.dim)) :
    Matrix (Fin ids.length) (Fin Pol.dim) ℚ :=
  Matrix.of fun k j => if j = ids.get k then 1 else 0

/-- Modelled from the spec: `operator==` — true iff the stored values are
elementwise equal and either both covariances are absent or both are present
and elementwise equal (the identifier selections agree by type). -/
def ParameterSet.equals {Pol : ParameterPolicy} {ids : List (Fin Pol.dim)}
    (a b : ParameterSet Pol ids) : Bool :=
  (decide (∀ k, a.values k = b.values k)) &&
    match a.cov, b.cov with
    | none, none => true
    | some ca, some cb => decide (ca = cb)
    | _, _ => false

/-- Modelled from the spec: `operator!=` — the negation of `operator==`. -/
def ParameterSet.unequals {Pol : ParameterPolicy} {ids : List (Fin Pol.dim)}
    (a b : ParameterSet Pol ids) : Bool :=
  !(ParameterSet.equals a b)

/-- Modelled from the spec: copy construction — an independent deep copy of
stored values and, when present, the covariance. -/
def ParameterSet.copy {Pol : ParameterPolicy} {ids : List (Fin Pol.dim)}
    (ps : ParameterSet Pol ids) : ParameterSet Pol ids :=
  ⟨ps.values, ps.cov⟩

/-- Modelled from the spec: copy assignment `target = source` — the target's
state is replaced by a deep copy of the source's. -/
def ParameterSet.assign {Pol : ParameterPolicy} {ids : List (Fin Pol.dim)}
    (_target source : ParameterSet Pol ids) : ParameterSet Pol ids :=
  ParameterSet.copy source

/-- Modelled from the spec: `swap(a, b)` — exchanges stored values and
covariance of the two sets; the pair holds the new states of `a` and `b`. -/
def ParameterSet.swapSets {Pol : ParameterPolicy} {ids : List (Fin Pol.dim)}
    (a b : ParameterSet Pol ids) :
    ParameterSet Pol ids × ParameterSet Pol ids :=
  (b, a)

/-- A concrete five-identifier policy used to instantiate the generic claims on
closed inputs: identifiers 0, 1 and 4 unbound, identifier 2 cyclic on
`[-4, 4)`, identifier 3 bounded on `[0, 3]` (rational stand-ins for the
`loc1, loc2, phi, theta, qop` layout exercised by the tests). -/
def testPolicy : ParameterPolicy :=
  ⟨5, fun i =>
    if i.val = 2 then ⟨BoundClass.Cyclic, -4, 4⟩
    else if i.val = 3 then ⟨BoundClass.Bounded, 0, 3⟩
    else ⟨BoundClass.Unbound, 0, 0⟩⟩

/-- Selection holding only the cyclic identifier of `testPolicy`. -/
def idsPhi : List (Fin testPolicy.dim) := [⟨2, by decide⟩]

/-- Position of the cyclic identifier inside `idsPhi`. -/
def kPhi : Fin idsPhi.length := ⟨0, by decide⟩

/-- Selection holding only the bounded identifier of `testPolicy`. -/
def idsTheta : List (Fin testPolicy.dim) := [⟨3, by decide⟩]

/-- Position of the bounded identifier inside `idsTheta`. -/
def kTheta : Fin idsTheta.length := ⟨0, by decide⟩

/-- Two-identifier selection (an unbound and a bounded identifier). -/
def idsPair : List (Fin testPolicy.dim) := [⟨0, by decide⟩, ⟨3, by decide⟩]

/-- First position inside `idsPair`. -/
def kPair0 : Fin idsPair.length := ⟨0, by decide⟩

/-- Second position inside `idsPair`. -/
def kPair1 : Fin idsPair.length := ⟨1, by decide⟩

/-- Concrete cyclic-only set with stored value `3`. -/
def phiSetA : ParameterSet testPolicy idsPhi := ⟨fun _ => 3, none⟩

/-- Concrete cyclic-only set with stored value `-3`. -/
def phiSetB : ParameterSet testPolicy idsPhi := ⟨fun _ => -3, none⟩

/-- Concrete cyclic-only set with stored value `0`. -/
def phiSetC : ParameterSet testPolicy idsPhi := ⟨fun _ => 0, none⟩

/-- Concrete cyclic-only set with stored value `-4`. -/
def phiSetD : ParameterSet testPolicy idsPhi := ⟨fun _ => -4, none⟩

/-- Concrete two-identifier set with stored values `1`. -/
def pairSetA : ParameterSet testPolicy idsPair := ⟨fun _ => 1, none⟩

/-- Concrete two-identifier set with stored values `2`. -/
def pairSetB : ParameterSet testPolicy idsPair := ⟨fun _ => 2, none⟩

/-! ### Helper lemmas on the cyclic wrap and fold -/

theorem get_cyclic_value_mem (v pmin pmax : ℚ) (hlt : pmin < pmax) :
    pmin ≤ get_cyclic_value v pmin pmax ∧ get_cyclic_value v pmin pmax < pmax := by
  have hP : (0 : ℚ) < pmax - pmin := by linarith
  have h1 : ((⌊(v - pmin) / (pmax - pmin)⌋ : ℤ) : ℚ) ≤ (v - pmin) / (pmax - pmin) :=
    Int.floor_le _
  have h2 : (v - pmin) / (pmax - pmin) < (⌊(v - pmin) / (pmax - pmin)⌋ : ℤ) + 1 :=
    Int.lt_floor_add_one _
  rw [le_div_iff₀ hP] at h1
  rw [div_lt_iff₀ hP] at h2
  unfold get_cyclic_value
  constructor <;> nlinarith

theorem get_cyclic_value_period_shift (v pmin pmax : ℚ) (hlt : pmin < pmax) (k : ℤ) :
    get_cyclic_value (v + k * (pmax - pmin)) pmin pmax = get_cyclic_value v pmin pmax := by
  have hP : (pmax - pmin) ≠ 0 := by intro h; linarith
  have hq : (v + k * (pmax - pmin) - pmin) / (pmax - pmin)
      = (v - pmin) / (pmax - pmin) + (k : ℚ) := by
    field_simp
    ring
  unfold get_cyclic_value
  rw [hq, Int.floor_add_int]
  push_cast
  ring

theorem get_cyclic_value_of_mem (v pmin pmax : ℚ) (hlo : pmin ≤ v) (hhi : v < pmax) :
    get_cyclic_value v pmin pmax = v := by
  have hP : (0 : ℚ) < pmax - pmin := by linarith
  have hfl : ⌊(v - pmin) / (pmax - pmin)⌋ = 0 := by
    rw [Int.floor_eq_zero_iff]
    constructor
    · exact div_nonneg (by linarith) (le_of_lt hP)
    · rw [div_lt_one hP]; linarith
  unfold get_cyclic_value
  rw [hfl]
  push_cast
  ring

theorem get_cyclic_value_sub_self (v pmin pmax : ℚ) :
    get_cyclic_value v pmin pmax - v
      = (-⌊(v - pmin) / (pmax - pmin)⌋ : ℤ) * (pmax - pmin) := by
  unfold get_cyclic_value
  push_cast
  ring

theorem correct_cyclic_eq (t : ParameterTrait) (v : ℚ)
    (ht : t.boundClass = BoundClass.Cyclic) :
    correct t v = get_cyclic_value v t.pMin t.pMax := by
  unfold correct
  rw [ht]

theorem correct_bounded_eq (t : ParameterTrait) (v : ℚ)
    (ht : t.boundClass = BoundClass.Bounded) :
    correct t v = min t.pMax (max t.pMin v) := by
  unfold correct
  rw [ht]

theorem correct_unbound_eq (t : ParameterTrait) (v : ℚ)
    (ht : t.boundClass = BoundClass.Unbound) :
    correct t v = v := by
  unfold correct
  rw [ht]

theorem residualComp_cyclic_eq (t : ParameterTrait) (a b : ℚ)
    (ht : t.boundClass = BoundClass.Cyclic) :
    residualComp t a b =
      (if a - b > (t.pMax - t.pMin) / 2 then a - b - (t.pMax - t.pMin)
       else if a - b ≤ -((t.pMax - t.pMin) / 2) then a - b + (t.pMax - t.pMin)
       else a - b) := by
  unfold residualComp
  rw [ht]

theorem residualComp_bounded_eq (t : ParameterTrait) (a b : ℚ)
    (ht : t.boundClass = BoundClass.Bounded) :
    residualComp t a b = a - b := by
  unfold residualComp
  rw [ht]

theorem residualComp_unbound_eq (t : ParameterTrait) (a b : ℚ)
    (ht : t.boundClass = BoundClass.Unbound) :
    residualComp t a b = a - b := by
  unfold residualComp
  rw [ht]

/-! ### Claims -/

/-- Claim C2: for every cyclic parameter with bounds `[min, max)` and period
`P = max - min`, every raw value `v` supplied at construction or via
`setParameter` is stored — and subsequently returned by `getParameter` — as
`v - P * floor((v - min)/P)`; the stored value satisfies `min ≤ stored < max`
and differs from `v` by an exact integer multiple of `P`. -/
theorem claim_C2 (Pol : ParameterPolicy) (ids : List (Fin Pol.dim)) (k : Fin ids.length)
    (pmin pmax : ℚ)
    (ht : (Pol.trait (ids.get k)).boundClass = BoundClass.Cyclic)
    (hmin : (Pol.trait (ids.get k)).pMin = pmin)
    (hmax : (Pol.trait (ids.get k)).pMax = pmax)
    (hlt : pmin < pmax)
    (cov : Option (Matrix (Fin ids.length) (Fin ids.length) ℚ))
    (raw : Fin ids.length → ℚ) (ps : ParameterSet Pol ids) (v : ℚ)
    (hraw : raw k = v) :
    ((ParameterSet.make Pol ids cov raw).getParameter k
        = v - (pmax - pmin) * (⌊(v - pmin) / (pmax - pmin)⌋ : ℤ)
      ∧ (ps.setParameter k v).getParameter k
        = v - (pmax - pmin) * (⌊(v - pmin) / (pmax - pmin)⌋ : ℤ))
    ∧ (pmin ≤ (ParameterSet.make Pol ids cov raw).getParameter k
      ∧ (ParameterSet.make Pol ids cov raw).getParameter k < pmax)
    ∧ (∃ n : ℤ, (ParameterSet.make Pol ids cov raw).getParameter k - v
        = n * (pmax - pmin)) := by
  have hmk : (ParameterSet.make Pol ids cov raw).getParameter k
      = get_cyclic_value v pmin pmax := by
    show correct (Pol.trait (ids.get k)) (raw k) = _
    rw [correct_cyclic_eq _ _ ht, hraw, hmin, hmax]
  have hset : (ps.setParameter k v).getParameter k = get_cyclic_value v pmin pmax := by
    show Function.update ps.values k (correct (Pol.trait (ids.get k)) v) k = _
    rw [Function.update_same, correct_cyclic_eq _ _ ht, hmin, hmax]
  have hmem := get_cyclic_value_mem v pmin pmax hlt
  refine ⟨⟨?_, ?_⟩, ⟨?_, ?_⟩, ?_⟩
  · rw [hmk]; rfl
  · rw [hset]; rfl
  · rw [hmk]; exact hmem.1
  · rw [hmk]; exact hmem.2
  · refine ⟨-⌊(v - pmin) / (pmax - pmin)⌋, ?_⟩
    rw [hmk, get_cyclic_value_sub_self]

/-- Closed instance of claim C2: the raw value `5` stored for the cyclic
parameter on `[-4, 4)` lies in `[-4, 4)` and differs from `5` by an integer
multiple of the period. -/
theorem claim_C2_witness :
    ((-4 : ℚ) ≤ (ParameterSet.make testPolicy idsPhi none (fun _ => 5)).getParameter kPhi
      ∧ (ParameterSet.make testPolicy idsPhi none (fun _ => 5)).getParameter kPhi < 4)
    ∧ (∃ n : ℤ, (ParameterSet.make testPolicy idsPhi none (fun _ => 5)).getParameter kPhi - 5
        = n * (4 - -4)) :=
  (claim_C2 testPolicy idsPhi kPhi (-4) 4 (by decide) (by decide) (by decide) (by decide)
    none (fun _ => 5) phiSetA 5 rfl).2

/-- Claim C4: for every bounded parameter with bounds `[min, max]`, every raw
input `v` supplied at construction or via `setParameter` is stored as
`clamp(v, min, max)`; `getParameter` always returns a value in `[min, max]`,
and returns `v` exactly when `min ≤ v ≤ max`. -/
theorem claim_C4 (Pol : ParameterPolicy) (ids : List (Fin Pol.dim)) (k : Fin ids.length)
    (pmin pmax : ℚ)
    (ht : (Pol.trait (ids.get k)).boundClass = BoundClass.Bounded)
    (hmin : (Pol.trait (ids.get k)).pMin = pmin)
    (hmax : (Pol.trait (ids.get k)).pMax = pmax)
    (hle : pmin ≤ pmax)
    (cov : Option (Matrix (Fin ids.length) (Fin ids.length) ℚ))
    (raw : Fin ids.length → ℚ) (ps : ParameterSet Pol ids) (v : ℚ)
    (hraw : raw k = v) :
    ((ParameterSet.make Pol ids cov raw).getParameter k = min pmax (max pmin v)
      ∧ (ps.setParameter k v).getParameter k = min pmax (max pmin v))
    ∧ (pmin ≤ (ParameterSet.make Pol ids cov raw).getParameter k
      ∧ (ParameterSet.make Pol ids cov raw).getParameter k ≤ pmax)
    ∧ (pmin ≤ v → v ≤ pmax → (ParameterSet.make Pol ids cov raw).getParameter k = v) := by
  have hmk : (ParameterSet.make Pol ids cov raw).getParameter k = min pmax (max pmin v) := by
    show correct (Pol.trait (ids.get k)) (raw k) = _
    rw [correct_bounded_eq _ _ ht, hraw, hmin, hmax]
  have hset : (ps.setParameter k v).getParameter k = min pmax (max pmin v) := by
    show Function.update ps.values k (correct (Pol.trait (ids.get k)) v) k = _
    rw [Function.update_same, correct_bounded_eq _ _ ht, hmin, hmax]
  refine ⟨⟨hmk, hset⟩, ⟨?_, ?_⟩, ?_⟩
  · rw [hmk]
    exact le_min hle (le_max_left _ _)
  · rw [hmk]
    exact min_le_left _ _
  · intro h1 h2
    rw [hmk, max_eq_right h1, min_eq_right h2]

/-- Closed instance of claim C4: the raw value `5` stored for the bounded
parameter on `[0, 3]` is clamped into `[0, 3]`, and the in-range value `2` is
stored unchanged. -/
theorem claim_C4_witness :
    ((0 : ℚ) ≤ (ParameterSet.make testPolicy idsTheta none (fun _ => 5)).getParameter kTheta
      ∧ (ParameterSet.make testPolicy idsTheta none (fun _ => 5)).getParameter kTheta ≤ 3)
    ∧ (ParameterSet.make testPolicy idsTheta none (fun _ => 2)).getParameter kTheta = 2 :=
  ⟨(claim_C4 testPolicy idsTheta kTheta 0 3 (by decide) (by decide) (by decide) (by decide)
      none (fun _ => 5) (ParameterSet.make testPolicy idsTheta none fun _ => 0) 5 rfl).2.1,
   (claim_C4 testPolicy idsTheta kTheta 0 3 (by decide) (by decide) (by decide) (by decide)
      none (fun _ => 2) (ParameterSet.make testPolicy idsTheta none fun _ => 0) 2 rfl).2.2
      (by decide) (by decide)⟩

/-- Claim C8: `setParameter` stores the range-corrected value for the selected
identifier and leaves every other stored parameter value unchanged. -/
theorem claim_C8 (Pol : ParameterPolicy) (ids : List (Fin Pol.dim))
    (ps : ParameterSet Pol ids) (k : Fin ids.length) (v : ℚ) :
    (ps.setParameter k v).getParameter k = correct (Pol.trait (ids.get k)) v
    ∧ ∀ j : Fin ids.length, j ≠ k → (ps.setParameter k v).getParameter j = ps.getParameter j := by
  constructor
  · show Function.update ps.values k _ k = _
    rw [Function.update_same]
  · intro j hj
    show Function.update ps.values k _ j = ps.values j
    rw [Function.update_noteq hj]

/-- Closed instance of claim C8: overwriting the first component of a
two-identifier set leaves the second component unchanged. -/
theorem claim_C8_witness :
    (pairSetA.setParameter kPair0 10).getParameter kPair1 = pairSetA.getParameter kPair1 :=
  (claim_C8 testPolicy idsPair pairSetA kPair0 10).2 kPair1 (by decide)

/-- Claim C1: for every cyclic parameter with period `P = max - min` and every
pair of parameter sets with identical identifier selection whose stored values
are already wrapped, the cyclic component of `a.residual(b)` equals the plain
difference `d` of the stored values folded into `(-P/2, P/2]` by
`d > P/2 → d - P` and `d ≤ -P/2 → d + P`; the result has magnitude at most
`P/2`, and re-adding it to `b`'s stored value and re-wrapping reproduces `a`'s
stored (wrapped) value exactly. -/
theorem claim_C1 (Pol : ParameterPolicy) (ids : List (Fin Pol.dim)) (k : Fin ids.length)
    (pmin pmax : ℚ)
    (ht : (Pol.trait (ids.get k)).boundClass = BoundClass.Cyclic)
    (hmin : (Pol.trait (ids.get k)).pMin = pmin)
    (hmax : (Pol.trait (ids.get k)).pMax = pmax)
    (hlt : pmin < pmax)
    (a b : ParameterSet Pol ids)
    (hA1 : pmin ≤ a.values k) (hA2 : a.values k < pmax)
    (hB1 : pmin ≤ b.values k) (hB2 : b.values k < pmax) :
    a.residual b k
      = (if a.values k - b.values k > (pmax - pmin) / 2 then
            a.values k - b.values k - (pmax - pmin)
         else if a.values k - b.values k ≤ -((pmax - pmin) / 2) then
            a.values k - b.values k + (pmax - pmin)
         else a.values k - b.values k)
    ∧ |a.residual b k| ≤ (pmax - pmin) / 2
    ∧ get_cyclic_value (b.values k + a.residual b k) pmin pmax = a.values k := by
  have hres : a.residual b k
      = (if a.values k - b.values k > (pmax - pmin) / 2 then
            a.values k - b.values k - (pmax - pmin)
         else if a.values k - b.values k ≤ -((pmax - pmin) / 2) then
            a.values k - b.values k + (pmax - pmin)
         else a.values k - b.values k) := by
    show residualComp (Pol.trait (ids.get k)) (a.values k) (b.values k) = _
    rw [residualComp_cyclic_eq _ _ _ ht, hmin, hmax]
  refine ⟨hres, ?_, ?_⟩
  · rw [hres]
    split_ifs with h1 h2
    · rw [abs_le]; constructor <;> linarith
    · rw [abs_le]; constructor <;> linarith
    · rw [abs_le]; constructor <;> linarith
  · rw [hres]
    split_ifs with h1 h2
    · have hshift : b.values k
          + (a.values k - b.values k - (pmax - pmin))
          = a.values k + ((-1 : ℤ) : ℚ) * (pmax - pmin) := by push_cast; ring
      rw [hshift, get_cyclic_value_period_shift _ _ _ hlt,
        get_cyclic_value_of_mem _ _ _ hA1 hA2]
    · have hshift : b.values k
          + (a.values k - b.values k + (pmax - pmin))
          = a.values k + ((1 : ℤ) : ℚ) * (pmax - pmin) := by push_cast; ring
      rw [hshift, get_cyclic_value_period_shift _ _ _ hlt,
        get_cyclic_value_of_mem _ _ _ hA1 hA2]
    · have hshift : b.values k + (a.values k - b.values k) = a.values k := by ring
      rw [hshift, get_cyclic_value_of_mem _ _ _ hA1 hA2]

/-- Closed instance of claim C1: for stored cyclic values `3` and `-3` on
`[-4, 4)`, the residual has magnitude at most half the period and re-adding it
to the second value and re-wrapping reproduces the first. -/
theorem claim_C1_witness :
    |phiSetA.residual phiSetB kPhi| ≤ ((4 : ℚ) - -4) / 2
    ∧ get_cyclic_value (phiSetB.values kPhi + phiSetA.residual phiSetB kPhi) (-4) 4
        = phiSetA.values kPhi :=
  (claim_C1 testPolicy idsPhi kPhi (-4) 4 (by decide) (by decide) (by decide) (by decide)
    phiSetA phiSetB (by decide) (by decide) (by decide) (by decide)).2

/-- Claim C3: for every bounded parameter, the residual component of
`a.residual(b)` is the difference of the already-clamped stored values; raw
inputs out of range on the same side give exactly `0`, and raw inputs out of
range on opposite sides give exactly `max - min` with the sign of the raw
difference. -/
theorem claim_C3 (Pol : ParameterPolicy) (ids : List (Fin Pol.dim)) (k : Fin ids.length)
    (pmin pmax : ℚ)
    (ht : (Pol.trait (ids.get k)).boundClass = BoundClass.Bounded)
    (hmin : (Pol.trait (ids.get k)).pMin = pmin)
    (hmax : (Pol.trait (ids.get k)).pMax = pmax)
    (hlt : pmin < pmax)
    (cova covb : Option (Matrix (Fin ids.length) (Fin ids.length) ℚ))
    (rawa rawb : Fin ids.length → ℚ) :
    ((ParameterSet.make Pol ids cova rawa).residual (ParameterSet.make Pol ids covb rawb) k
        = (ParameterSet.make Pol ids cova rawa).getParameter k
          - (ParameterSet.make Pol ids covb rawb).getParameter k)
    ∧ (rawa k > pmax → rawb k > pmax →
        (ParameterSet.make Pol ids cova rawa).residual (ParameterSet.make Pol ids covb rawb) k = 0)
    ∧ (rawa k < pmin → rawb k < pmin →
        (ParameterSet.make Pol ids cova rawa).residual (ParameterSet.make Pol ids covb rawb) k = 0)
    ∧ (rawa k > pmax → rawb k < pmin →
        (ParameterSet.make Pol ids cova rawa).residual (ParameterSet.make Pol ids covb rawb) k
          = pmax - pmin ∧ rawa k - rawb k > 0)
    ∧ (rawa k < pmin → rawb k > pmax →
        (ParameterSet.make Pol ids cova rawa).residual (ParameterSet.make Pol ids covb rawb) k
          = -(pmax - pmin) ∧ rawa k - rawb k < 0) := by
  have hA : (ParameterSet.make Pol ids cova rawa).getParameter k
      = min pmax (max pmin (rawa k)) := by
    show correct (Pol.trait (ids.get k)) (rawa k) = _
    rw [correct_bounded_eq _ _ ht, hmin, hmax]
  have hB : (ParameterSet.make Pol ids covb rawb).getParameter k
      = min pmax (max pmin (rawb k)) := by
    show correct (Pol.trait (ids.get k)) (rawb k) = _
    rw [correct_bounded_eq _ _ ht, hmin, hmax]
  have hres : (ParameterSet.make Pol ids cova rawa).residual
      (ParameterSet.make Pol ids covb rawb) k
      = (ParameterSet.make Pol ids cova rawa).getParameter k
        - (ParameterSet.make Pol ids covb rawb).getParameter k := by
    show residualComp (Pol.trait (ids.get k)) _ _ = _
    rw [residualComp_bounded_eq _ _ _ ht]
    rfl
  have clamp_above : ∀ v : ℚ, v > pmax → min pmax (max pmin v) = pmax := by
    intro v hv
    rw [max_eq_right (by linarith : pmin ≤ v), min_eq_left (by linarith : pmax ≤ v)]
  have clamp_below : ∀ v : ℚ, v < pmin → min pmax (max pmin v) = pmin := by
    intro v hv
    rw [max_eq_left (by linarith : v ≤ pmin), min_eq_right (by linarith : pmin ≤ pmax)]
  refine ⟨hres, ?_, ?_, ?_, ?_⟩
  · intro ha hb
    rw [hres, hA, hB, clamp_above _ ha, clamp_above _ hb, sub_self]
  · intro ha hb
    rw [hres, hA, hB, clamp_below _ ha, clamp_below _ hb, sub_self]
  · intro ha hb
    constructor
    · rw [hres, hA, hB, clamp_above _ ha, clamp_below _ hb]
    · linarith
  · intro ha hb
    constructor
    · rw [hres, hA, hB, clamp_below _ ha, clamp_above _ hb]
      ring
    · linarith

/-- Closed instance of claim C3: both raw inputs above the upper bound of the
bounded parameter on `[0, 3]` give residual exactly `0`, and raw inputs on
opposite sides give exactly `max - min = 3`. -/
theorem claim_C3_witness :
    ((ParameterSet.make testPolicy idsTheta none (fun _ => 5)).residual
        (ParameterSet.make testPolicy idsTheta none (fun _ => 4)) kTheta = 0)
    ∧ ((ParameterSet.make testPolicy idsTheta none (fun _ => 5)).residual
        (ParameterSet.make testPolicy idsTheta none (fun _ => -2)) kTheta = 3 - 0) :=
  ⟨(claim_C3 testPolicy idsTheta kTheta 0 3 (by decide) (by decide) (by decide) (by decide)
      none none (fun _ => 5) (fun _ => 4)).2.1 (by decide) (by decide),
   ((claim_C3 testPolicy idsTheta kTheta 0 3 (by decide) (by decide) (by decide) (by decide)
      none none (fun _ => 5) (fun _ => -2)).2.2.2.1 (by decide) (by decide)).1⟩

/-- Counterexample to claim C5 as stated: for the cyclic parameter on
`[-4, 4)` (period `P = 8`) with stored values `0` and `-4`, the wrapped
difference is exactly `P/2 = 4`, and both `a.residual(b)` and `b.residual(a)`
evaluate to `+4`, so `a.residual(b) ≠ -b.residual(a)` — off by a full period,
beyond any tolerance. -/
theorem claim_C5_counterexample :
    ¬ (phiSetC.residual phiSetD kPhi = -(phiSetD.residual phiSetC kPhi)) := by
  have h1 : phiSetC.residual phiSetD kPhi = 4 := by
    show residualComp (testPolicy.trait (idsPhi.get kPhi))
      (phiSetC.values kPhi) (phiSetD.values kPhi) = 4
    rw [residualComp_cyclic_eq _ _ _ (by decide)]
    show (if (0 : ℚ) - -4 > ((4 : ℚ) - -4) / 2 then (0 : ℚ) - -4 - ((4 : ℚ) - -4)
          else if (0 : ℚ) - -4 ≤ -(((4 : ℚ) - -4) / 2) then (0 : ℚ) - -4 + ((4 : ℚ) - -4)
          else (0 : ℚ) - -4) = 4
    norm_num
  have h2 : phiSetD.residual phiSetC kPhi = 4 := by
    show residualComp (testPolicy.trait (idsPhi.get kPhi))
      (phiSetD.values kPhi) (phiSetC.values kPhi) = 4
    rw [residualComp_cyclic_eq _ _ _ (by decide)]
    show (if (-4 : ℚ) - 0 > ((4 : ℚ) - -4) / 2 then (-4 : ℚ) - 0 - ((4 : ℚ) - -4)
          else if (-4 : ℚ) - 0 ≤ -(((4 : ℚ) - -4) / 2) then (-4 : ℚ) - 0 + ((4 : ℚ) - -4)
          else (-4 : ℚ) - 0) = 4
    norm_num
  rw [h1, h2]
  norm_num

/-- Claim C5 (amended): residual antisymmetry `a.residual(b) = -b.residual(a)`
holds exactly for every unbound or bounded component, and for every cyclic
component (with `pMin ≤ pMax`) whose stored-value difference has magnitude
different from half the period; at magnitude exactly `P/2` both residuals
equal `+P/2` instead. -/
theorem claim_C5_amended (Pol : ParameterPolicy) (ids : List (Fin Pol.dim))
    (a b : ParameterSet Pol ids) (k : Fin ids.length)
    (h : (Pol.trait (ids.get k)).boundClass ≠ BoundClass.Cyclic
      ∨ ((Pol.trait (ids.get k)).pMin ≤ (Pol.trait (ids.get k)).pMax
          ∧ |a.values k - b.values k|
            ≠ ((Pol.trait (ids.get k)).pMax - (Pol.trait (ids.get k)).pMin) / 2)) :
    a.residual b k = -(b.residual a k) := by
  show residualComp (Pol.trait (ids.get k)) (a.values k) (b.values k)
      = -(residualComp (Pol.trait (ids.get k)) (b.values k) (a.values k))
  rcases h with h | ⟨hle, habs⟩
  · cases hbc : (Pol.trait (ids.get k)).boundClass with
    | Unbound =>
        rw [residualComp_unbound_eq _ _ _ hbc, residualComp_unbound_eq _ _ _ hbc]
        ring
    | Bounded =>
        rw [residualComp_bounded_eq _ _ _ hbc, residualComp_bounded_eq _ _ _ hbc]
        ring
    | Cyclic => exact absurd hbc h
  · by_cases hbc : (Pol.trait (ids.get k)).boundClass = BoundClass.Cyclic
    · rw [residualComp_cyclic_eq _ _ _ hbc, residualComp_cyclic_eq _ _ _ hbc]
      have hhalf : (0 : ℚ)
          ≤ ((Pol.trait (ids.get k)).pMax - (Pol.trait (ids.get k)).pMin) / 2 := by
        linarith
      have hd1 : a.values k - b.values k
          ≠ ((Pol.trait (ids.get k)).pMax - (Pol.trait (ids.get k)).pMin) / 2 := by
        intro hc
        exact habs (by rw [hc, abs_of_nonneg hhalf])
      have hd2 : a.values k - b.values k
          ≠ -(((Pol.trait (ids.get k)).pMax - (Pol.trait (ids.get k)).pMin) / 2) := by
        intro hc
        exact habs (by rw [hc, abs_neg, abs_of_nonneg hhalf])
      rcases lt_or_gt_of_ne hd1 with h1 | h1 <;>
        rcases lt_or_gt_of_ne hd2 with h2 | h2 <;>
          split_ifs <;> linarith
    · cases hbc2 : (Pol.trait (ids.get k)).boundClass with
      | Unbound =>
          rw [residualComp_unbound_eq _ _ _ hbc2, residualComp_unbound_eq _ _ _ hbc2]
          ring
      | Bounded =>
          rw [residualComp_bounded_eq _ _ _ hbc2, residualComp_bounded_eq _ _ _ hbc2]
          ring
      | Cyclic => exact absurd hbc2 hbc

/-- Closed instance of amended claim C5: antisymmetry holds exactly on the
unbound component of the two-identifier sets. -/
theorem claim_C5_witness :
    pairSetA.residual pairSetB kPair0 = -(pairSetB.residual pairSetA kPair0) :=
  claim_C5_amended testPolicy idsPair pairSetA pairSetB kPair0 (Or.inl (by decide))

/-- Reflexivity of the modelled `operator==`. -/
theorem equals_reflexive (Pol : ParameterPolicy) (ids : List (Fin Pol.dim))
    (y : ParameterSet Pol ids) : ParameterSet.equals y y = true := by
  unfold ParameterSet.equals
  rcases hc : y.cov with _ | c <;> simp

/-- Claim C6: `projector()` is the constant one-hot selection matrix — row `k`
has a `1` exactly at the canonical position of the `k`-th selected identifier —
and multiplying it with a full-space vector extracts the entries at the
selected identifiers, in the selection's own order, for any selection order. -/
theorem claim_C6 (Pol : ParameterPolicy) (ids : List (Fin Pol.dim))
    (f : Fin Pol.dim → ℚ) :
    (∀ (k : Fin ids.length) (j : Fin Pol.dim),
        ParameterSet.projector Pol ids k j = if j = ids.get k then 1 else 0)
    ∧ (ParameterSet.projector Pol ids).mulVec f = fun k => f (ids.get k) := by
  constructor
  · intro k j
    rfl
  · funext k
    show ∑ j, (if j = ids.get k then (1 : ℚ) else 0) * f j = f (ids.get k)
    simp only [ite_mul, one_mul, zero_mul]
    rw [Finset.sum_ite_eq' Finset.univ (ids.get k) f]
    simp

/-- Claim C7: two parameter sets with the same identifier selection compare
equal under `operator==` iff their stored values are elementwise exactly equal
and either both lack a covariance or both have one, elementwise equal; and
`operator!=` is the exact negation of `operator==`. -/
theorem claim_C7 (Pol : ParameterPolicy) (ids : List (Fin Pol.dim))
    (a b : ParameterSet Pol ids) :
    (ParameterSet.equals a b = true ↔
      ((∀ k, a.values k = b.values k)
        ∧ ((a.cov = none ∧ b.cov = none)
          ∨ ∃ ca cb, a.cov = some ca ∧ b.cov = some cb ∧ ∀ i j, ca i j = cb i j)))
    ∧ ParameterSet.unequals a b = !(ParameterSet.equals a b) := by
  refine ⟨?_, rfl⟩
  constructor
  · intro h
    unfold ParameterSet.equals at h
    rw [Bool.and_eq_true] at h
    refine ⟨of_decide_eq_true h.1, ?_⟩
    have h2 := h.2
    rcases hac : a.cov with _ | ca <;> rcases hbc : b.cov with _ | cb <;>
      rw [hac, hbc] at h2
    · exact Or.inl ⟨rfl, rfl⟩
    · exact absurd h2 (by simp)
    · exact absurd h2 (by simp)
    · have hcc : ca = cb := of_decide_eq_true h2
      exact Or.inr ⟨ca, cb, rfl, rfl, fun i j => by rw [hcc]⟩
  · rintro ⟨hv, hcov⟩
    unfold ParameterSet.equals
    rw [Bool.and_eq_true]
    refine ⟨decide_eq_true hv, ?_⟩
    rcases hcov with ⟨h1, h2⟩ | ⟨ca, cb, h1, h2, h3⟩
    · rw [h1, h2]
    · rw [h1, h2]
      have hcc : ca = cb := by
        funext i j
        exact h3 i j
      simp [hcc]

/-- Claim C9: copy, assignment and swap preserve value equality — a copy
compares equal to the original, swapping exchanges the two states exactly, and
self-assignment leaves the set equal to its previous value. -/
theorem claim_C9 (Pol : ParameterPolicy) (ids : List (Fin Pol.dim))
    (x a b : ParameterSet Pol ids) :
    ParameterSet.equals (ParameterSet.copy x) x = true
    ∧ (ParameterSet.swapSets a b).1 = b
    ∧ (ParameterSet.swapSets a b).2 = a
    ∧ ParameterSet.equals (ParameterSet.assign x x) x = true :=
  ⟨equals_reflexive Pol ids x, rfl, rfl, equals_reflexive Pol ids x⟩

/-- Claim C10: the cyclic residual depends on its operands only modulo the
period — storing raw values shifted by integer multiples of `P = max - min`
yields exactly the same residual component, because both operands are wrapped
into `[min, max)` before differencing. -/
theorem claim_C10 (Pol : ParameterPolicy) (ids : List (Fin Pol.dim)) (k : Fin ids.length)
    (pmin pmax : ℚ)
    (ht : (Pol.trait (ids.get k)).boundClass = BoundClass.Cyclic)
    (hmin : (Pol.trait (ids.get k)).pMin = pmin)
    (hmax : (Pol.trait (ids.get k)).pMax = pmax)
    (hlt : pmin < pmax)
    (x y : ℚ) (m n : ℤ)
    (cova covb cova2 covb2 : Option (Matrix (Fin ids.length) (Fin ids.length) ℚ))
    (rawa rawb rawa2 rawb2 : Fin ids.length → ℚ)
    (h1 : rawa k = x + (m : ℚ) * (pmax - pmin))
    (h2 : rawb k = y + (n : ℚ) * (pmax - pmin))
    (h3 : rawa2 k = x) (h4 : rawb2 k = y) :
    (ParameterSet.make Pol ids cova rawa).residual (ParameterSet.make Pol ids covb rawb) k
      = (ParameterSet.make Pol ids cova2 rawa2).residual
          (ParameterSet.make Pol ids covb2 rawb2) k := by
  show residualComp (Pol.trait (ids.get k))
      (correct (Pol.trait (ids.get k)) (rawa k)) (correct (Pol.trait (ids.get k)) (rawb k))
    = residualComp (Pol.trait (ids.get k))
      (correct (Pol.trait (ids.get k)) (rawa2 k)) (correct (Pol.trait (ids.get k)) (rawb2 k))
  rw [correct_cyclic_eq _ _ ht, correct_cyclic_eq _ _ ht, correct_cyclic_eq _ _ ht,
    correct_cyclic_eq _ _ ht, h1, h2, h3, h4, hmin, hmax,
    get_cyclic_value_period_shift x pmin pmax hlt m,
    get_cyclic_value_period_shift y pmin pmax hlt n]

/-- Closed instance of claim C10: shifting the raw cyclic inputs `1` and `2`
by `+P` and `-P` (period `P = 8`) leaves the residual unchanged. -/
theorem claim_C10_witness :
    (ParameterSet.make testPolicy idsPhi none
        (fun _ => 1 + ((1 : ℤ) : ℚ) * (4 - -4))).residual
      (ParameterSet.make testPolicy idsPhi none
        (fun _ => 2 + ((-1 : ℤ) : ℚ) * (4 - -4))) kPhi
    = (ParameterSet.make testPolicy idsPhi none (fun _ => 1)).residual
        (ParameterSet.make testPolicy idsPhi none (fun _ => 2)) kPhi :=
  claim_C10 testPolicy idsPhi kPhi (-4) 4 (by decide) (by decide) (by decide) (by decide)
    1 2 1 (-1) none none none none _ _ _ _ rfl rfl rfl rfl
